import Mathlib

/-!
Verification of the OCR-PDF pipeline (`src/app.py`).

Python strings are embedded as `List Char` (Unicode scalar values, matching
Python's code-point view of `str`).  The external collaborators — the
rasterizer (`pdf2image`), the image preprocessor (PIL), the OCR engine
(`pytesseract`) and the PDF renderer (reportlab) — are not modelled; the raw
string the OCR engine returns for each rasterized page image is taken as an
abstract input, and the output document is modelled as the `content` list of
items the composer appends (styled paragraphs, spacers, page breaks).
-/

namespace OCRPdf

/-- The code points Python's `str.isspace` (and hence the no-argument
`str.strip` / `str.split`) treats as whitespace. -/
def pyWhitespace : List Nat :=
  [9, 10, 11, 12, 13, 28, 29, 30, 31, 32, 133, 160, 5760,
   8192, 8193, 8194, 8195, 8196, 8197, 8198, 8199, 8200, 8201, 8202,
   8232, 8233, 8239, 8287, 12288]

/-- Python whitespace test for a single character. -/
def pyIsSpace (c : Char) : Bool :=
  pyWhitespace.contains c.toNat

/-- Python-uppercase characters (`Lu` or `Other_Uppercase`) with code point
≤ U+00FF: ASCII `A`–`Z` plus `À`–`Ö` and `Ø`–`Þ`; there are no
`Other_Uppercase` characters in this range.  This executable instance agrees
with Python on every code point ≤ U+00FF and treats higher code points as
uncased; the full Unicode tables are external data, abstracted in
`is_titleWith` below. -/
def pyIsUpperChar (c : Char) : Bool :=
  decide (65 ≤ c.toNat ∧ c.toNat ≤ 90) ||
  decide (192 ≤ c.toNat ∧ c.toNat ≤ 214) ||
  decide (216 ≤ c.toNat ∧ c.toNat ≤ 222)

/-- Python-lowercase characters (`Ll` or `Other_Lowercase`) with code point
≤ U+00FF: ASCII `a`–`z`, the ordinal indicators `ª` and `º`, `µ`, `ß`–`ö`
and `ø`–`ÿ`.  Agrees with Python on every code point ≤ U+00FF; higher code
points are treated as uncased (see `pyIsUpperChar`). -/
def pyIsLowerChar (c : Char) : Bool :=
  decide (97 ≤ c.toNat ∧ c.toNat ≤ 122) ||
  decide (c.toNat = 170) ||
  decide (c.toNat = 186) ||
  decide (c.toNat = 181) ||
  decide (223 ≤ c.toNat ∧ c.toNat ≤ 246) ||
  decide (248 ≤ c.toNat ∧ c.toNat ≤ 255)

/-- A character is cased when it is uppercase or lowercase (Latin-1 has no
titlecase characters). -/
def pyIsCased (c : Char) : Bool :=
  pyIsUpperChar c || pyIsLowerChar c

/-- Python `s.isupper()`: at least one cased character and no lowercase
character (equivalently, all cased characters are uppercase). -/
def pyIsUpper (s : List Char) : Bool :=
  s.any pyIsUpperChar && s.all fun c => !pyIsLowerChar c

/-- One left-to-right pass of `re.sub(r'<[^>]+>', '', text)`.

State `none`: the scanner is not inside a candidate match.  State `some buf`:
an unresolved `'<'` has been read and `buf` holds (reversed) the characters
read since, none of which is `'>'`.  On reading `'>'`: if at least one
character was buffered the span `'<' … '>'` matches `<[^>]+>` and is dropped;
if the buffer is empty the regex cannot match at that `'<'` (`[^>]+` needs at
least one character), so `<>` is emitted verbatim.  At end of input an
unresolved `'<'` and its buffer are emitted verbatim (no closing `'>'`, so no
match started there). -/
def removeTagsAux : Option (List Char) → List Char → List Char
  | none, [] => []
  | none, c :: rest =>
    if c = '<' then removeTagsAux (some []) rest
    else c :: removeTagsAux none rest
  | some buf, [] => '<' :: buf.reverse
  | some buf, c :: rest =>
    if c = '>' then
      if buf.isEmpty then '<' :: '>' :: removeTagsAux none rest
      else removeTagsAux none rest
    else removeTagsAux (some (c :: buf)) rest

/-- `re.sub(r'<[^>]+>', '', text)`: remove every HTML-tag-like substring. -/
def removeTags (text : List Char) : List Char :=
  removeTagsAux none text

/-- Python `s.strip()`: drop Python-whitespace characters from both ends. -/
def pyStrip (s : List Char) : List Char :=
  ((s.dropWhile pyIsSpace).reverse.dropWhile pyIsSpace).reverse

/-- `clean_text` from `src/app.py`: remove HTML-tag-like substrings, then
strip leading/trailing whitespace of the whole string. -/
def clean_text (text : List Char) : List Char :=
  pyStrip (removeTags text)

/-- `escape_paragraph_text` from `src/app.py`: remove HTML-tag-like
substrings, then remove every non-ASCII character
(`re.sub(r'[^\x00-\x7F]+', '', text)` deletes each maximal run of characters
outside 0–127, i.e. it keeps exactly the characters with code point ≤ 127). -/
def escape_paragraph_text (text : List Char) : List Char :=
  (removeTags text).filter fun c => decide (c.toNat ≤ 127)

/-- Buffered scanner for Python's no-argument `s.split()`: maximal runs of
non-whitespace characters, empty runs discarded. -/
def splitWsAux : List Char → List Char → List (List Char)
  | buf, [] => if buf.isEmpty then [] else [buf.reverse]
  | buf, c :: rest =>
    if pyIsSpace c then
      if buf.isEmpty then splitWsAux [] rest
      else buf.reverse :: splitWsAux [] rest
    else splitWsAux (c :: buf) rest

/-- Python `s.split()` (no separator): the list of whitespace-separated
words. -/
def pySplitWS (s : List Char) : List (List Char) :=
  splitWsAux [] s

/-- `is_title` from `src/app.py`:
`line.isupper() and len(line.split()) < 10`. -/
def is_title (line : List Char) : Bool :=
  pyIsUpper line && decide ((pySplitWS line).length < 10)

/-- Python `s.isupper()` with the per-character case classification
abstracted: `upperC`, `lowerC` and `titleC` stand for Python's uppercase
(`Lu`/`Other_Uppercase`), lowercase (`Ll`/`Other_Lowercase`) and titlecase
(`Lt`) tables, which are external Unicode data.  CPython's loop returns true
iff no character is lowercase or titlecase and at least one is uppercase. -/
def pyIsUpperWith (upperC lowerC titleC : Char → Bool) (s : List Char) : Bool :=
  s.any upperC && s.all fun c => !lowerC c && !titleC c

/-- A character is cased when it is uppercase, lowercase or titlecase. -/
def casedWith (upperC lowerC titleC : Char → Bool) (c : Char) : Bool :=
  upperC c || lowerC c || titleC c

/-- `is_title` with the case tables abstracted:
`line.isupper() and len(line.split()) < 10`. -/
def is_titleWith (upperC lowerC titleC : Char → Bool) (line : List Char) : Bool :=
  pyIsUpperWith upperC lowerC titleC line
    && decide ((pySplitWS line).length < 10)

/-- Prepend a character to the first piece of a split (used to build Python's
keep-empty-pieces `str.split(sep)`). -/
def consHead (c : Char) : List (List Char) → List (List Char)
  | [] => [[c]]
  | l :: ls => (c :: l) :: ls

/-- Python `text.split("\n")`: split at every newline, keeping empty pieces
(so `"".split("\n") == [""]`). -/
def splitLines : List Char → List (List Char)
  | [] => [[]]
  | '\n' :: rest => [] :: splitLines rest
  | c :: rest => consHead c (splitLines rest)

/-- Python `text.split("\n\n")`: split at every non-overlapping two-newline
sequence, scanning left to right, keeping empty pieces. -/
def splitParas : List Char → List (List Char)
  | [] => [[]]
  | '\n' :: '\n' :: rest => [] :: splitParas rest
  | c :: rest => consHead c (splitParas rest)

/-- One item of the output document's `content` list.  `paragraph` carries
the escaped line text and whether the title style was used; `spacer` records
`Spacer(1, 0.2*inch)` with its height in hundredths of an inch (reportlab's
floating-point geometry is not modelled); `pageBreak` is `PageBreak()`. -/
inductive Content where
  | paragraph (text : List Char) (title : Bool)
  | spacer (width heightCentiInch : Nat)
  | pageBreak
deriving DecidableEq

/-- Whether a content item is the page-break marker. -/
def isPageBreak : Content → Bool
  | Content.pageBreak => true
  | _ => false

/-- The content item the composer appends for one line: the line is escaped,
then classified by `is_title` (title style or normal style). -/
def lineContent (line : List Char) : Content :=
  Content.paragraph (escape_paragraph_text line)
    (is_title (escape_paragraph_text line))

/-- The content the inner loops of `pdf_to_single_output_pdf` append for one
page text: for each paragraph (split on `"\n\n"`), its lines (split on
`"\n"`) as styled paragraphs followed by a `Spacer(1, 0.2*inch)`. -/
def composePageBody (text : List Char) : List Content :=
  ((splitParas text).map fun paragraph =>
    ((splitLines paragraph).map lineContent) ++ [Content.spacer 1 20]).flatten

/-- The full content appended for one page: the page body followed by a
forced `PageBreak()`. -/
def composePage (text : List Char) : List Content :=
  composePageBody text ++ [Content.pageBreak]

/-- `extract_text_from_image` from `src/app.py`: preprocessing and the
Tesseract call are external; `rawOcr` stands for the string the OCR engine
returns for the (preprocessed) page image.  The function then applies
`clean_text`, as the source does. -/
def extract_text_from_image (rawOcr : List Char) : List Char :=
  clean_text rawOcr

/-- Observable result of one pipeline invocation: the console lines printed
and the composed output content (`none` models the bare `return`, where no
byte buffer is produced). -/
structure RunResult where
  console : List (List Char)
  output : Option (List Content)

/-- The console message `print(f"O arquivo {input_pdf_path} não existe.")`. -/
def missingFileMessage (path : List Char) : List Char :=
  ("O arquivo ").toList ++ path ++ (" não existe.").toList

/-- `pdf_to_single_output_pdf` from `src/app.py`.  The filesystem check
`os.path.exists(input_pdf_path)` is modelled by the Boolean `inputExists`;
`ocrPages` holds, in source page order, the raw OCR string of each page image
produced by the rasterizer.  On a missing input the function prints one
console line and returns no result; otherwise it builds the content list page
by page (the reportlab serialization of that content to bytes is external). -/
def pdf_to_single_output_pdf (inputPdfPath : List Char) (inputExists : Bool)
    (ocrPages : List (List Char)) : RunResult :=
  if inputExists = false then
    ⟨[missingFileMessage inputPdfPath], none⟩
  else
    ⟨[], some ((ocrPages.map fun raw =>
        composePage (extract_text_from_image raw)).flatten)⟩

/-- `s` contains a substring matched by the regex `<[^>]+>`: a `'<'`, then a
nonempty run of non-`'>'` characters, then a `'>'`. -/
def hasTagLike (s : List Char) : Prop :=
  ∃ a m b, m ≠ [] ∧ '>' ∉ m ∧ s = a ++ '<' :: (m ++ '>' :: b)

/- Sanity checks of the embedding on the spec's concrete examples. -/

lemma escape_example :
    escape_paragraph_text (("<b>Hello</b> World").toList) =
      ("Hello World").toList := by decide

lemma clean_text_example :
    clean_text ((" <b>Hello</b> World" ++ "\n").toList) =
      ("Hello World").toList := by decide

lemma empty_tag_example :
    removeTags (("a<>b").toList) = ("a<>b").toList := by decide

lemma nested_lt_example :
    removeTags (("x<a<b>y").toList) = ("xy").toList := by decide

lemma is_title_example : is_title (("TITLE HERE").toList) = true := by decide

lemma is_title_long_example :
    is_title (("A B C D E F G H I J").toList) = false := by decide

lemma is_title_ordinal_example : is_title (("Aª").toList) = false := by decide

lemma split_paras_example :
    splitParas (("a" ++ "\n\n" ++ "\n" ++ "b").toList) =
      [("a").toList, ("\n" ++ "b").toList] := by decide

/- The scanner only deletes characters: its output is a sublist of its
input (with the buffered characters accounted for in the `some` state). -/

lemma removeTagsAux_sublist (s : List Char) :
    (removeTagsAux none s).Sublist s ∧
      ∀ buf, (removeTagsAux (some buf) s).Sublist ('<' :: (buf.reverse ++ s)) := by
  induction s with
  | nil =>
    refine ⟨List.Sublist.refl _, fun buf => ?_⟩
    simp [removeTagsAux]
  | cons c rest ih =>
    constructor
    · by_cases hc : c = '<'
      · subst hc
        simpa [removeTagsAux] using (ih.2 []).trans (List.Sublist.refl _)
      · simpa [removeTagsAux, hc] using List.Sublist.cons₂ c ih.1
    · intro buf
      by_cases hc : c = '>'
      · subst hc
        by_cases hb : buf.isEmpty
        · have hbuf : buf = [] := by simpa [List.isEmpty_iff] using hb
          subst hbuf
          simpa [removeTagsAux] using
            List.Sublist.cons₂ '<' (List.Sublist.cons₂ '>' ih.1)
        · have h1 : (removeTagsAux none rest).Sublist ('>' :: rest) :=
            ih.1.cons '>'
          have h2 : ('>' :: rest).Sublist (buf.reverse ++ '>' :: rest) :=
            List.sublist_append_right _ _
          simpa [removeTagsAux, hb] using ((h1.trans h2).cons '<')
      · have := ih.2 (c :: buf)
        simpa [removeTagsAux, hc, List.append_assoc] using this

/-- Escaping only deletes characters (claim C9). -/
lemma removeTags_sublist (s : List Char) : (removeTags s).Sublist s :=
  (removeTagsAux_sublist s).1

/- Tag-freeness invariant: in the scanner's output every `'<'` is either
immediately followed by `'>'` or has no `'>'` anywhere after it, so no
substring can match `<[^>]+>`. -/

/-- Strings in which the pattern `<[^>]+>` cannot match: built from
characters other than `'<'`, the two-character block `<>`, and a final `'<'`
with no later `'>'`. -/
inductive Good : List Char → Prop where
  | nil : Good []
  | other {c : Char} {s : List Char} : c ≠ '<' → Good s → Good (c :: s)
  | ltgt {s : List Char} : Good ('>' :: s) → Good ('<' :: '>' :: s)
  | ltend {s : List Char} : '>' ∉ s → Good ('<' :: s)

lemma good_removeTagsAux (s : List Char) :
    Good (removeTagsAux none s) ∧
      ∀ buf, '>' ∉ buf → Good (removeTagsAux (some buf) s) := by
  induction s with
  | nil =>
    refine ⟨Good.nil, fun buf hbuf => ?_⟩
    simp only [removeTagsAux]
    exact Good.ltend (by simpa using hbuf)
  | cons c rest ih =>
    constructor
    · by_cases hc : c = '<'
      · subst hc
        simpa [removeTagsAux] using ih.2 [] (by simp)
      · simpa [removeTagsAux, hc] using Good.other hc ih.1
    · intro buf hbuf
      by_cases hc : c = '>'
      · subst hc
        by_cases hb : buf.isEmpty
        · simpa [removeTagsAux, hb] using Good.ltgt (Good.other (by decide) ih.1)
        · simpa [removeTagsAux, hb] using ih.1
      · have : '>' ∉ c :: buf := by
          intro h
          rcases List.mem_cons.mp h with h | h
          · exact hc h.symm
          · exact hbuf h
        simpa [removeTagsAux, hc] using ih.2 (c :: buf) this

lemma good_removeTags (s : List Char) : Good (removeTags s) :=
  (good_removeTagsAux s).1

/-- A `Good` string contains no substring matching `<[^>]+>`. -/
lemma Good.not_hasTagLike {s : List Char} (h : Good s) : ¬ hasTagLike s := by
  induction h with
  | nil =>
    rintro ⟨a, m, b, hm, hgt, heq⟩
    exact absurd heq.symm (by simp)
  | other hc hg ih =>
    rintro ⟨a, m, b, hm, hgt, heq⟩
    cases a with
    | nil =>
      simp only [List.nil_append, List.cons.injEq] at heq
      exact hc heq.1
    | cons a0 a' =>
      simp only [List.cons_append, List.cons.injEq] at heq
      exact ih ⟨a', m, b, hm, hgt, heq.2⟩
  | ltgt hg ih =>
    rintro ⟨a, m, b, hm, hgt, heq⟩
    cases a with
    | nil =>
      simp only [List.nil_append, List.cons.injEq] at heq
      cases m with
      | nil => exact hm rfl
      | cons m0 m' =>
        simp only [List.cons_append, List.cons.injEq] at heq
        exact hgt (heq.2.1 ▸ List.mem_cons_self _ _)
    | cons a0 a' =>
      simp only [List.cons_append, List.cons.injEq] at heq
      exact ih ⟨a', m, b, hm, hgt, heq.2⟩
  | ltend hnot =>
    rintro ⟨a, m, b, hm, hgt, heq⟩
    cases a with
    | nil =>
      simp only [List.nil_append, List.cons.injEq] at heq
      exact hnot (heq.2 ▸ (by simp : '>' ∈ m ++ '>' :: b))
    | cons a0 a' =>
      simp only [List.cons_append, List.cons.injEq] at heq
      exact hnot (heq.2 ▸ (by simp : '>' ∈ a' ++ '<' :: (m ++ '>' :: b)))

/-- `Good` is preserved by filtering with a predicate that keeps `'<'` and
`'>'` (such as the ASCII filter). -/
lemma Good.filter_pred {s : List Char} (p : Char → Bool)
    (hlt : p '<' = true) (hgt : p '>' = true) (h : Good s) :
    Good (s.filter p) := by
  induction h with
  | nil => simpa using Good.nil
  | other hc hg ih =>
    rename_i c s'
    by_cases hp : p c
    · simpa [List.filter_cons, hp] using Good.other hc ih
    · simpa [List.filter_cons, hp] using ih
  | ltgt hg ih =>
    rename_i s'
    have hrw : List.filter p ('>' :: s') = '>' :: List.filter p s' := by
      simp [List.filter_cons, hgt]
    rw [hrw] at ih
    have : List.filter p ('<' :: '>' :: s') = '<' :: '>' :: List.filter p s' := by
      simp [List.filter_cons, hlt, hgt]
    rw [this]
    exact Good.ltgt ih
  | ltend hnot =>
    rename_i s'
    have : List.filter p ('<' :: s') = '<' :: List.filter p s' := by
      simp [List.filter_cons, hlt]
    rw [this]
    exact Good.ltend fun hmem => hnot (List.mem_of_mem_filter hmem)

/-- On inputs with no `'>'` the scanner emits the pending `'<'` and buffer
verbatim. -/
lemma removeTagsAux_no_gt (s : List Char) :
    ∀ buf, '>' ∉ s → removeTagsAux (some buf) s = '<' :: (buf.reverse ++ s) := by
  induction s with
  | nil => intro buf _; simp [removeTagsAux]
  | cons c rest ih =>
    intro buf hno
    have hc : ¬ c = '>' := fun h => hno (h ▸ List.mem_cons_self _ _)
    have hrest : '>' ∉ rest := fun h => hno (List.mem_cons_of_mem _ h)
    simp only [removeTagsAux, if_neg hc]
    rw [ih (c :: buf) hrest]
    simp [List.append_assoc]

/-- A `Good` string is a fixed point of tag removal. -/
lemma Good.removeTags_eq {s : List Char} (h : Good s) : removeTags s = s := by
  induction h with
  | nil => rfl
  | other hc hg ih =>
    rename_i c s'
    simp only [removeTags, removeTagsAux, if_neg hc] at ih ⊢
    rw [ih]
  | ltgt hg ih =>
    rename_i s'
    simp only [removeTags, removeTagsAux, if_neg (by decide : ¬ ('>' : Char) = '<')] at ih
    have htail : removeTagsAux none s' = s' := (List.cons.inj ih).2
    simp only [removeTags, removeTagsAux, if_pos rfl, List.isEmpty_nil, if_pos (by decide : ('>' : Char) = '>')]
    simp [htail]
  | ltend hnot =>
    rename_i s'
    simp only [removeTags, removeTagsAux, if_pos rfl]
    simpa using removeTagsAux_no_gt s' [] hnot

/-- Every character surviving the escape is ASCII. -/
lemma escape_ascii (x : List Char) :
    ∀ c ∈ escape_paragraph_text x, c.toNat ≤ 127 := by
  intro c hc
  simpa using (List.mem_filter.mp hc).2

/-- The escape output satisfies the tag-freeness invariant. -/
lemma good_escape (x : List Char) : Good (escape_paragraph_text x) :=
  Good.filter_pred _ (by decide) (by decide) (good_removeTags x)

/-- The escape output contains no substring matching `<[^>]+>`. -/
lemma escape_tagfree (x : List Char) :
    ¬ hasTagLike (escape_paragraph_text x) :=
  (good_escape x).not_hasTagLike

/-- C1: for every input string, `escape_paragraph_text` returns a string with
no character of ordinal ≥ 128 and no substring matching `<[^>]+>`; hence the
text of every styled paragraph appended to the output content is ASCII-only
and tag-free. -/
theorem escape_ascii_and_tagfree (x : List Char) :
    (((escape_paragraph_text x).all fun c => decide (c.toNat ≤ 127)) = true)
    ∧ ¬ hasTagLike (escape_paragraph_text x)
    ∧ ∀ t l b, Content.paragraph l b ∈ composePage t →
        (((l.all fun c => decide (c.toNat ≤ 127)) = true) ∧ ¬ hasTagLike l) := by
  refine ⟨?_, escape_tagfree x, ?_⟩
  · simp only [List.all_eq_true, decide_eq_true_eq]
    exact escape_ascii x
  · intro t l b hmem
    have hline : ∃ line, l = escape_paragraph_text line := by
      rcases List.mem_append.mp hmem with h | h
      · rcases List.mem_flatten.mp h with ⟨L, hL, hxL⟩
        rcases List.mem_map.mp hL with ⟨para, _, rfl⟩
        rcases List.mem_append.mp hxL with h2 | h2
        · rcases List.mem_map.mp h2 with ⟨line, _, heq⟩
          simp only [lineContent, Content.paragraph.injEq] at heq
          exact ⟨line, heq.1.symm⟩
        · simp at h2
      · simp at h
    rcases hline with ⟨line, rfl⟩
    constructor
    · simp only [List.all_eq_true, decide_eq_true_eq]
      exact escape_ascii line
    · exact escape_tagfree line

/-- Witness for C1 at concrete inputs. -/
theorem escape_ascii_and_tagfree_witness :
    (((escape_paragraph_text (("é<b>Hi").toList)).all
        fun c => decide (c.toNat ≤ 127)) = true)
    ∧ ¬ hasTagLike (escape_paragraph_text (("é<b>Hi").toList))
    ∧ ((((("x").toList).all fun c => decide (c.toNat ≤ 127)) = true)
        ∧ ¬ hasTagLike (("x").toList)) :=
  ⟨(escape_ascii_and_tagfree (("é<b>Hi").toList)).1,
   (escape_ascii_and_tagfree (("é<b>Hi").toList)).2.1,
   (escape_ascii_and_tagfree (("é<b>Hi").toList)).2.2 (("<i>x").toList)
     (("x").toList) false (by decide)⟩

/-- C3: `escape_paragraph_text` is idempotent. -/
theorem escape_idempotent (x : List Char) :
    escape_paragraph_text (escape_paragraph_text x) = escape_paragraph_text x := by
  have g2 : Good (escape_paragraph_text x) := good_escape x
  show (removeTags (escape_paragraph_text x)).filter _ = _
  rw [g2.removeTags_eq]
  simp only [escape_paragraph_text, List.filter_filter]
  simp

/-- C9: escaping only deletes characters — the output is a sublist
(subsequence) of the input, so its length can only shrink and the surviving
characters keep their relative order. -/
theorem escape_only_deletes (x : List Char) :
    (escape_paragraph_text x).Sublist x
    ∧ (escape_paragraph_text x).length ≤ x.length := by
  have h : (escape_paragraph_text x).Sublist x :=
    (List.filter_sublist _).trans (removeTags_sublist x)
  exact ⟨h, h.length_le⟩

/- Machinery for `clean_text` (claim C6): stripping yields an infix, and the
endpoints of the stripped string are not whitespace. -/

lemma dropWhile_isSuffix (p : Char → Bool) (l : List Char) :
    l.dropWhile p <:+ l := by
  induction l with
  | nil => exact List.suffix_refl _
  | cons c rest ih =>
    by_cases hp : p c
    · simpa [List.dropWhile_cons, hp] using ih.trans (List.suffix_cons c rest)
    · simp [List.dropWhile_cons, hp]

lemma pyStrip_isPrefix (u : List Char) :
    pyStrip u <+: u.dropWhile pyIsSpace := by
  obtain ⟨w, hw⟩ := dropWhile_isSuffix pyIsSpace (u.dropWhile pyIsSpace).reverse
  refine ⟨w.reverse, ?_⟩
  have := congrArg List.reverse hw
  simpa [pyStrip, List.reverse_append] using this

lemma pyStrip_isInfix (u : List Char) : pyStrip u <:+: u := by
  obtain ⟨t, ht⟩ := pyStrip_isPrefix u
  obtain ⟨w, hw⟩ := dropWhile_isSuffix pyIsSpace u
  exact ⟨w, t, by rw [List.append_assoc, ht, hw]⟩

lemma hasTagLike_mono {t s : List Char} (h : t <:+: s)
    (ht : hasTagLike t) : hasTagLike s := by
  obtain ⟨u, v, rfl⟩ := h
  obtain ⟨a, m, b, hm, hgt, rfl⟩ := ht
  exact ⟨u ++ a, m, b ++ v, hm, hgt, by simp [List.append_assoc]⟩

lemma head?_dropWhile_not {p : Char → Bool} {l : List Char} {c : Char}
    (h : (l.dropWhile p).head? = some c) : p c = false := by
  induction l with
  | nil => simp at h
  | cons d rest ih =>
    by_cases hp : p d
    · rw [List.dropWhile_cons, if_pos hp] at h
      exact ih h
    · rw [List.dropWhile_cons, if_neg hp] at h
      simp only [List.head?_cons, Option.some.injEq] at h
      subst h
      simpa using hp

lemma head?_of_isPrefix {v w : List Char} {c : Char} (h : v <+: w)
    (hc : v.head? = some c) : w.head? = some c := by
  obtain ⟨t, rfl⟩ := h
  cases v with
  | nil => simp at hc
  | cons a v' => simpa using hc

/-- C6: `clean_text` only removes tag-like substrings and trims the two ends
of the whole string: the result is an infix of the tag-removal output, it
contains no substring matching `<[^>]+>`, and neither its first nor its last
character is whitespace. -/
theorem clean_text_spec (x : List Char) :
    clean_text x <:+: removeTags x
    ∧ ¬ hasTagLike (clean_text x)
    ∧ (∀ c, (clean_text x).head? = some c → pyIsSpace c = false)
    ∧ (∀ c, (clean_text x).getLast? = some c → pyIsSpace c = false) := by
  have hinf : clean_text x <:+: removeTags x := pyStrip_isInfix (removeTags x)
  refine ⟨hinf, ?_, ?_, ?_⟩
  · intro h
    exact (good_removeTags x).not_hasTagLike (hasTagLike_mono hinf h)
  · intro c hc
    have hpre : clean_text x <+: (removeTags x).dropWhile pyIsSpace :=
      pyStrip_isPrefix (removeTags x)
    exact head?_dropWhile_not (head?_of_isPrefix hpre hc)
  · intro c hc
    have : (((removeTags x).dropWhile pyIsSpace).reverse.dropWhile
        pyIsSpace).head? = some c := by
      rw [← List.getLast?_reverse]
      simpa [clean_text, pyStrip] using hc
    exact head?_dropWhile_not this

/-- Witness for C6 at a concrete input. -/
theorem clean_text_spec_witness :
    ¬ hasTagLike (clean_text ((" <b>Hi</b>" ++ "\n").toList))
    ∧ pyIsSpace 'H' = false ∧ pyIsSpace 'i' = false :=
  ⟨(clean_text_spec ((" <b>Hi</b>" ++ "\n").toList)).2.1,
   (clean_text_spec ((" <b>Hi</b>" ++ "\n").toList)).2.2.1 'H' (by decide),
   (clean_text_spec ((" <b>Hi</b>" ++ "\n").toList)).2.2.2 'i' (by decide)⟩

/- Title heuristic (claim C2). -/

lemma upper_not_lower {c : Char} (h : pyIsUpperChar c = true) :
    pyIsLowerChar c = false := by
  simp only [pyIsUpperChar, Bool.or_eq_true, decide_eq_true_eq] at h
  simp only [pyIsLowerChar, Bool.or_eq_false_iff, decide_eq_false_iff_not]
  omega

/-- The composer's concrete classifier is `is_titleWith` instantiated at the
≤ U+00FF case tables (there are no titlecase characters in that range). -/
lemma is_title_eq_is_titleWith (line : List Char) :
    is_title line =
      is_titleWith pyIsUpperChar pyIsLowerChar (fun _ => false) line := by
  simp [is_title, pyIsUpper, is_titleWith, pyIsUpperWith]

/-- C2: for any per-character case tables in which an uppercase character is
neither lowercase nor titlecase (true of Unicode, hence of Python's real
tables), `is_title line` is true exactly when the line is uppercase in
Python's `isupper` sense — at least one cased character and every cased
character uppercase — and has strictly fewer than ten whitespace-separated
words; in particular the empty line is classified normal. -/
theorem is_title_iff (upperC lowerC titleC : Char → Bool)
    (hL : ∀ c, upperC c = true → lowerC c = false)
    (hT : ∀ c, upperC c = true → titleC c = false)
    (line : List Char) :
    (is_titleWith upperC lowerC titleC line = true ↔
      ((∃ c ∈ line, casedWith upperC lowerC titleC c = true)
        ∧ (∀ c ∈ line, casedWith upperC lowerC titleC c = true →
            upperC c = true)
        ∧ (pySplitWS line).length < 10))
    ∧ is_titleWith upperC lowerC titleC [] = false := by
  refine ⟨?_, by simp [is_titleWith, pyIsUpperWith]⟩
  simp only [is_titleWith, pyIsUpperWith, Bool.and_eq_true, decide_eq_true_eq,
    List.any_eq_true, List.all_eq_true, Bool.not_eq_true']
  constructor
  · rintro ⟨⟨⟨c, hc, hup⟩, hall⟩, hlen⟩
    refine ⟨⟨c, hc, by simp [casedWith, hup]⟩, ?_, hlen⟩
    intro d hd hcase
    have hnl := hall d hd
    simp only [casedWith, Bool.or_eq_true] at hcase
    rcases hcase with (h | h) | h
    · exact h
    · rw [h] at hnl
      simp at hnl
    · rw [h] at hnl
      simp at hnl
  · rintro ⟨⟨c, hc, hcase⟩, hup, hlen⟩
    refine ⟨⟨⟨c, hc, hup c hc hcase⟩, ?_⟩, hlen⟩
    intro d hd
    constructor
    · refine Bool.eq_false_iff.mpr fun hb => ?_
      have hcd : casedWith upperC lowerC titleC d = true := by
        simp [casedWith, hb]
      have hfalse := hL d (hup d hd hcd)
      simp [hfalse] at hb
    · refine Bool.eq_false_iff.mpr fun hb => ?_
      have hcd : casedWith upperC lowerC titleC d = true := by
        simp [casedWith, hb]
      have hfalse := hT d (hup d hd hcd)
      simp [hfalse] at hb

/-- Witness for C2: the theorem applied at the concrete ≤ U+00FF tables
(whose required disjointness is `upper_not_lower`) and a concrete line. -/
theorem is_title_iff_witness :
    (∃ c ∈ ("HELLO WORLD").toList,
        casedWith pyIsUpperChar pyIsLowerChar (fun _ => false) c = true)
    ∧ (∀ c ∈ ("HELLO WORLD").toList,
        casedWith pyIsUpperChar pyIsLowerChar (fun _ => false) c = true →
          pyIsUpperChar c = true)
    ∧ (pySplitWS (("HELLO WORLD").toList)).length < 10 :=
  (is_title_iff pyIsUpperChar pyIsLowerChar (fun _ => false)
      (fun _ hc => upper_not_lower hc) (fun _ _ => rfl)
      (("HELLO WORLD").toList)).1.mp (by decide)

/- Paragraph/line split round trip (claim C7). -/

lemma intercalate_single (sep x : List Char) :
    List.intercalate sep [x] = x := by
  simp [List.intercalate]

lemma intercalate_cons2 (sep x y : List Char) (t : List (List Char)) :
    List.intercalate sep (x :: y :: t) =
      x ++ sep ++ List.intercalate sep (y :: t) := by
  simp [List.intercalate, List.intersperse_cons_cons, List.append_assoc]

lemma intercalate_consHead (sep : List Char) (c : Char)
    (L : List (List Char)) :
    List.intercalate sep (consHead c L) = c :: List.intercalate sep L := by
  cases L with
  | nil => simp [consHead, intercalate_single, List.intercalate]
  | cons l ls =>
    cases ls with
    | nil => simp [consHead, intercalate_single]
    | cons y t => simp [consHead, intercalate_cons2]

lemma splitLines_ne_nil (s : List Char) : splitLines s ≠ [] := by
  induction s using splitLines.induct with
  | case1 => simp [splitLines]
  | case2 rest ih => simp [splitLines]
  | case3 c rest h ih =>
    rw [splitLines.eq_3 c rest h]
    cases splitLines rest <;> simp [consHead]

lemma splitParas_ne_nil (s : List Char) : splitParas s ≠ [] := by
  induction s using splitParas.induct with
  | case1 => simp [splitParas]
  | case2 rest ih => simp [splitParas]
  | case3 c rest h ih =>
    rw [splitParas.eq_3 c rest h]
    cases splitParas rest <;> simp [consHead]

lemma join_splitLines (s : List Char) :
    List.intercalate ['\n'] (splitLines s) = s := by
  induction s using splitLines.induct with
  | case1 => simp [splitLines, intercalate_single]
  | case2 rest ih =>
    obtain ⟨l, ls, hls⟩ := List.exists_cons_of_ne_nil (splitLines_ne_nil rest)
    rw [splitLines, hls, intercalate_cons2, ← hls, ih]
    simp
  | case3 c rest h ih =>
    rw [splitLines.eq_3 c rest h, intercalate_consHead, ih]

lemma join_splitParas (s : List Char) :
    List.intercalate ['\n', '\n'] (splitParas s) = s := by
  induction s using splitParas.induct with
  | case1 => simp [splitParas, intercalate_single]
  | case2 rest ih =>
    obtain ⟨l, ls, hls⟩ := List.exists_cons_of_ne_nil (splitParas_ne_nil rest)
    rw [splitParas, hls, intercalate_cons2, ← hls, ih]
    simp
  | case3 c rest h ih =>
    rw [splitParas.eq_3 c rest h, intercalate_consHead, ih]

/-- C7: the paragraph/line decomposition is a lossless round trip — joining
each paragraph's lines with `"\n"` and the paragraphs with `"\n\n"`
reconstructs the page text exactly. -/
theorem split_join_roundtrip (t : List Char) :
    List.intercalate ['\n', '\n']
      ((splitParas t).map fun p => List.intercalate ['\n'] (splitLines p))
      = t := by
  simp only [join_splitLines, List.map_id']
  exact join_splitParas t

/- Composer structure (claims C4, C5, C8, C10). -/

lemma countP_composePageBody (t : List Char) :
    (composePageBody t).countP isPageBreak = 0 := by
  rw [List.countP_eq_zero]
  intro a ha
  simp only [composePageBody, List.mem_flatten, List.mem_map] at ha
  rcases ha with ⟨L, ⟨para, hpara, rfl⟩, haL⟩
  rcases List.mem_append.mp haL with h | h
  · rcases List.mem_map.mp h with ⟨line, _, rfl⟩
    simp [lineContent, isPageBreak]
  · simp only [List.mem_singleton] at h
    subst h
    simp [isPageBreak]

lemma countP_composePage (t : List Char) :
    (composePage t).countP isPageBreak = 1 := by
  simp [composePage, List.countP_append, countP_composePageBody,
    List.countP_cons, isPageBreak]

lemma sum_map_one {α : Type} (L : List α) :
    (L.map fun _ => (1 : Nat)).sum = L.length := by
  induction L with
  | nil => rfl
  | cons a l ih => simp [ih, Nat.add_comm]

/-- C4: on an existing input, the composed content is exactly the pages'
bodies in source page order, each followed by one page break; in particular
an input with N page images yields exactly N page-break markers, and no page
break occurs inside a page's body. -/
theorem page_break_count (path : List Char) (pages : List (List Char)) :
    (pdf_to_single_output_pdf path true pages).output
      = some ((pages.map fun raw =>
          composePageBody (extract_text_from_image raw)
            ++ [Content.pageBreak]).flatten)
    ∧ ((pages.map fun raw =>
          composePage (extract_text_from_image raw)).flatten).countP isPageBreak
        = pages.length
    ∧ ∀ raw ∈ pages,
        (composePageBody (extract_text_from_image raw)).countP isPageBreak = 0 := by
  refine ⟨rfl, ?_, fun raw _ => countP_composePageBody _⟩
  rw [List.countP_flatten, List.map_map]
  have hfun : (List.countP isPageBreak ∘ fun raw =>
      composePage (extract_text_from_image raw)) = fun _ => (1 : Nat) := by
    funext raw
    exact countP_composePage _
  rw [hfun, sum_map_one]

/-- Witness for C4 at a concrete input. -/
theorem page_break_count_witness :
    ((([("A").toList]).map fun raw =>
        composePage (extract_text_from_image raw)).flatten).countP isPageBreak
      = 1
    ∧ (composePageBody
        (extract_text_from_image (("A").toList))).countP isPageBreak = 0 :=
  ⟨(page_break_count [] [("A").toList]).2.1,
   (page_break_count [] [("A").toList]).2.2 (("A").toList) (by decide)⟩

/-- C5: on a missing input the pipeline prints the console message and
returns no result; in the embedding the function is total, so no exception
reaches the caller. -/
theorem missing_input_no_output (path : List Char)
    (pages : List (List Char)) :
    (pdf_to_single_output_pdf path false pages).output = none
    ∧ (pdf_to_single_output_pdf path false pages).console
        = [missingFileMessage path] :=
  ⟨rfl, rfl⟩

/-- C10: a page whose extracted cleaned text is empty still contributes one
content section — a single normal-styled empty paragraph (the empty line is
not uppercase, so it is never title-styled), one `Spacer(1, 0.2*inch)`, and
one page break — so blank pages are not skipped. -/
theorem empty_page_section :
    composePage [] =
      [Content.paragraph [] false, Content.spacer 1 20, Content.pageBreak]
    ∧ is_title [] = false
    ∧ (composePage []).countP isPageBreak = 1 := by
  refine ⟨by decide, by decide, by decide⟩

/-- The concrete single-page example text of claim C8. -/
def examplePageText : List Char :=
  ("TITLE HERE" ++ "\n\n" ++ "Body text line one" ++ "\n"
    ++ "Body text line two").toList

/-- C8 (counterexample to the claim as stated): the composed content for the
example page is not the five-item sequence `[title paragraph, spacer, normal
paragraph, normal paragraph, page break]` — the claim omits the spacer the
composer appends after the second (body) paragraph unit. -/
theorem single_page_example_counterexample :
    (pdf_to_single_output_pdf (("temp.pdf").toList) true
        [examplePageText]).output ≠
      some [Content.paragraph (("TITLE HERE").toList) true,
            Content.spacer 1 20,
            Content.paragraph (("Body text line one").toList) false,
            Content.paragraph (("Body text line two").toList) false,
            Content.pageBreak] := by
  decide

/-- C8 (amended): the composed content for the example page is exactly one
title-styled paragraph `"TITLE HERE"`, a spacer, two normal-styled
paragraphs, a second spacer, and a page break. -/
theorem single_page_example_content :
    (pdf_to_single_output_pdf (("temp.pdf").toList) true
        [examplePageText]).output =
      some [Content.paragraph (("TITLE HERE").toList) true,
            Content.spacer 1 20,
            Content.paragraph (("Body text line one").toList) false,
            Content.paragraph (("Body text line two").toList) false,
            Content.spacer 1 20,
            Content.pageBreak] := by
  decide

end OCRPdf
